import Mathlib

/-
  Verification development for the pyFRR path-computation engine
  (pypaths package: node.py, path.py, topology.py, all_paths.py,
  spf_paths.py, lfa_paths.py, rlfa_paths.py).

  The Python code is shallowly embedded: Python node objects are
  identified by their (unique-per-topology) name string, in-place
  mutation is rendered as explicit state passing, and raised Python
  exceptions are rendered as Except results.
-/

set_option linter.unusedVariables false

namespace PyFRR

/-- Python exception kinds raised by the modelled code. -/
inductive PyErr where
  | keyError : String → PyErr
  | valueError : String → PyErr
  | indexError : PyErr
  | typeError : String → PyErr
  | attributeError : String → PyErr
  | fuelExhausted : PyErr
deriving DecidableEq, Repr

/-- Scalar JSON-ish values appearing in the node and link dicts handled by
node.py and topology.py. -/
inductive ScalarVal where
  | vstr : String → ScalarVal
  | vint : Int → ScalarVal
  | vnone : ScalarVal
deriving DecidableEq, Repr

/-- A link dict, as consumed by Edge.from_dict and produced by Edge.to_dict:
string keys mapped to scalar values. -/
abbrev EdgeDict := List (String × ScalarVal)

/-- Values of a node dict: the scalars used for id, name, node_sid and
node_side, plus the edges list written by Node.to_dict. -/
inductive NodeVal where
  | scalar : ScalarVal → NodeVal
  | edges : List EdgeDict → NodeVal
deriving DecidableEq, Repr

/-- A node dict, as consumed by Node.from_dict and produced by Node.to_dict. -/
abbrev NodeDict := List (String × NodeVal)

/-- Values of the top-level topology dict: the directed and multigraph flags,
the nodes list and the links list. -/
inductive TopoVal where
  | flag : Bool → TopoVal
  | nodes : List NodeDict → TopoVal
  | links : List EdgeDict → TopoVal
deriving DecidableEq, Repr

/-- The top-level topology dict consumed by Topology.from_dict and produced
by Topology.to_dict. -/
abbrev TopoDict := List (String × TopoVal)

/-- Association-list lookup, modelling a Python dict indexed by string key. -/
def dictGet {α : Type} (d : List (String × α)) (k : String) : Option α :=
  match d with
  | [] => none
  | (k2, v) :: rest => if k2 = k then some v else dictGet rest k

/-- Python dict assignment d[k] = v: replace in place when the key exists,
append otherwise. -/
def dictSet {α : Type} (d : List (String × α)) (k : String) (v : α) :
    List (String × α) :=
  match d with
  | [] => [(k, v)]
  | (k2, v2) :: rest =>
      if k2 = k then (k2, v) :: rest else (k2, v2) :: dictSet rest k v

/-- Edge from node.py. The Python object holds references to its local and
remote Node objects; within one topology a node reference is identified by
its unique name, so the endpoints are kept as names here. The field for the
Python attribute named like the keyword for local declarations is loc. -/
structure Edge where
  loc : String
  remote : String
  adj_sid : Option Int := none
  weight : Int := 0
deriving DecidableEq, Repr

/-- Settings.DEFAULT_WEIGHT from settings.py. -/
def DEFAULT_WEIGHT : Int := 0

/-- Settings.HEIGHTEST_WEIGHT from settings.py (sys.maxsize on CPython). -/
def HEIGHTEST_WEIGHT : Int := 9223372036854775807

/-- Node from node.py: name, optional SR node SID, dict of edges per
neighbour name (insertion order), and the neighbour list (insertion order).
The shared-mutable-default-argument aliasing of Node.__init__ is modelled
separately in the ObjModel namespace; the graph-engine model here covers
nodes whose containers are per-node, which holds for every node built by
Node.from_dict (the only construction path used by Topology.from_dict). -/
structure Node where
  name : String
  node_sid : Option Int := none
  edges : List (String × List Edge) := []
  neighbours : List String := []
deriving DecidableEq, Repr

/-- Node.edges_toward_node: the edge list towards a neighbour, empty when
the neighbour has no entry. -/
def Node.edges_toward_node (n : Node) (nb : String) : List Edge :=
  (dictGet n.edges nb).getD []

/-- Topology from topology.py: the dict from node name to Node, kept in
insertion order. -/
structure Topology where
  nodes : List Node := []
deriving DecidableEq, Repr

/-- Lookup of a node by name in a node list. -/
def findNode (ns : List Node) (name : String) : Option Node :=
  match ns with
  | [] => none
  | n :: rest => if n.name = name then some n else findNode rest name

/-- Lookup of a node by name in the topology dict. -/
def Topology.find? (t : Topology) (name : String) : Option Node :=
  findNode t.nodes name

/-- Topology.get_node_names: the list of node names in insertion order. -/
def Topology.get_node_names (t : Topology) : List String :=
  t.nodes.map Node.name

/-- Replace the node with the given name by the image of f (in-place object
mutation of a Node reachable from the topology dict). -/
def Topology.updateNode (t : Topology) (name : String) (f : Node → Node) :
    Topology :=
  ⟨t.nodes.map (fun n => if n.name = name then f n else n)⟩

/-- Topology.add_node: the membership test uses object identity on a freshly
constructed Node, so it always passes, and the dict assignment overwrites
any node already stored under the same name. -/
def Topology.add_node (t : Topology) (node : Node) : Topology :=
  if (t.find? node.name).isSome then
    ⟨t.nodes.map (fun n => if n.name = node.name then node else n)⟩
  else ⟨t.nodes ++ [node]⟩

/-- Node.add_neighbour: append the neighbour name unless already present or
equal to the node itself. Python compares node objects by identity; node
names are unique per topology, so name equality models that. -/
def Node.add_neighbour (n : Node) (nb : String) : Node :=
  if nb ∈ n.neighbours ∨ nb = n.name then n
  else { n with neighbours := n.neighbours ++ [nb] }

/-- Node.add_edge, acting on the whole topology because the Python method
mutates both endpoint Node objects: when the remote is a new key, an empty
edge list is created and both neighbour lists are extended; then the edge is
appended unless already present. The Python membership test on the edge list
compares by object identity and every caller passes a freshly constructed
Edge, so it never suppresses an append there; the structural test used here
agrees on every program state exercised in this development (no duplicated
link dict in any input). -/
def Topology.add_edge (t : Topology) (owner : String) (e : Edge) : Topology :=
  let t1 :=
    match t.find? owner with
    | none => t
    | some selfN =>
        if (dictGet selfN.edges e.remote).isSome then t
        else
          let t1 := t.updateNode owner (fun n =>
            { n with edges := dictSet n.edges e.remote [] })
          let t2 := t1.updateNode owner (fun n => n.add_neighbour e.remote)
          t2.updateNode e.remote (fun n => n.add_neighbour e.loc)
  t1.updateNode owner (fun n =>
    let cur := (dictGet n.edges e.remote).getD []
    if e ∈ cur then n
    else { n with edges := dictSet n.edges e.remote (cur ++ [e]) })

/-- str() applied to the values that occur in node dicts. -/
def NodeVal.pystr : NodeVal → String
  | .scalar (.vstr s) => s
  | .scalar (.vint n) => toString n
  | .scalar .vnone => "None"
  | .edges _ => "edges"

/-- Node.from_dict from node.py: reads the keys id and node_sid and builds a
Node with fresh empty edge and neighbour containers. Missing id raises
KeyError; int() of a non-int node_sid raises. -/
def Node.from_dict (node : NodeDict) : Except PyErr Node := do
  let node_sid : Option Int ←
    match dictGet node "node_sid" with
    | none => pure none
    | some (.scalar (.vint n)) => pure (some n)
    | some _ => .error (.typeError "int() argument")
  let nameVal ←
    match dictGet node "id" with
    | none => .error (.keyError "id")
    | some v => pure v
  let name := nameVal.pystr
  -- Node.__init__: falsy name raises ValueError; node_sid here is int or None
  if name = "" then .error (.valueError "Name required to create new node")
  else
    pure { name := name, node_sid := node_sid, edges := [], neighbours := [] }

/-- Edge.__init__ argument checking from node.py: adj_sid must be an int or
None and weight must be an int, anything else raises ValueError. The weight
argument is the scalar passed by Edge.from_dict (None when the key is
missing, which fails the int check). -/
def Edge.init (loc remote : String) (adj_sid weight : ScalarVal) :
    Except PyErr Edge := do
  let a : Option Int ←
    match adj_sid with
    | .vint n => pure (some n)
    | .vnone => pure none
    | _ => .error (.valueError "adj_sid must be int or None")
  let w : Int ←
    match weight with
    | .vint n => pure n
    | _ => .error (.valueError "weight must be int")
  pure { loc := loc, remote := remote, adj_sid := a, weight := w }

/-- Edge.from_dict from node.py: resolves the source and target node names
in the nodes dict (KeyError when absent) and passes the adj_sid and weight
values through, substituting None for a missing key; in particular a link
dict without a weight key reaches Edge.__init__ with weight None. -/
def Edge.from_dict (t : Topology) (edge : EdgeDict) : Except PyErr Edge := do
  let srcVal ←
    match dictGet edge "source" with
    | none => .error (.keyError "source")
    | some v => pure v
  let src ←
    match srcVal with
    | .vstr s =>
        match t.find? s with
        | some n => pure n.name
        | none => .error (.keyError s)
    | _ => .error (.keyError "source value")
  let tgtVal ←
    match dictGet edge "target" with
    | none => .error (.keyError "target")
    | some v => pure v
  let tgt ←
    match tgtVal with
    | .vstr s =>
        match t.find? s with
        | some n => pure n.name
        | none => .error (.keyError s)
    | _ => .error (.keyError "target value")
  let adj := (dictGet edge "adj_sid").getD .vnone
  let wv := (dictGet edge "weight").getD .vnone
  Edge.init src tgt adj wv

/-- Edge.to_dict from node.py: source and target as node name strings, with
adj_sid and weight emitted only when truthy (absent when None or 0). -/
def Edge.to_dict (e : Edge) : EdgeDict :=
  let d : EdgeDict := [("source", .vstr e.loc), ("target", .vstr e.remote)]
  let d :=
    match e.adj_sid with
    | some n => if n ≠ 0 then d ++ [("adj_sid", .vint n)] else d
    | none => d
  if e.weight ≠ 0 then d ++ [("weight", .vint e.weight)] else d

/-- Node.edges_to_list from node.py: all edge dicts of the node, in edge
dict insertion order. -/
def Node.edges_to_list (n : Node) : List EdgeDict :=
  (n.edges.map (fun pr => pr.2.map Edge.to_dict)).flatten

/-- Node.to_dict from node.py: keys edges, name and node_side (the literal
key spelling of the source). -/
def Node.to_dict (n : Node) (inc_edges : Bool) : NodeDict :=
  let es := if inc_edges then n.edges_to_list else []
  [("edges", .edges es),
   ("name", .scalar (.vstr n.name)),
   ("node_side", .scalar (match n.node_sid with
                          | some s => .vint s
                          | none => .vnone))]

/-- Edge.copy followed by Edge.swap_nodes, as used by the mirroring pass of
Topology.from_dict. -/
def Edge.copySwap (e : Edge) : Edge :=
  { e with loc := e.remote, remote := e.loc }

/-- One step of the mirroring pass of Topology.from_dict for a fixed node:
for each recorded neighbour with no edge entry, insert the swapped copies of
the reverse edges. -/
def Topology.mirrorNode (t : Topology) (name : String) : Topology :=
  match t.find? name with
  | none => t
  | some node =>
      node.neighbours.foldl (fun acc nb =>
        match acc.find? name with
        | none => acc
        | some cur =>
            if (cur.edges_toward_node nb).isEmpty then
              match acc.find? nb with
              | none => acc
              | some nbNode =>
                  (nbNode.edges_toward_node name).foldl (fun acc2 e =>
                    acc2.add_edge name e.copySwap) acc
            else acc) t

/-- Topology.from_dict from topology.py: load the nodes, load the edges
(adding each edge to its local node; the endpoint checks in the source only
log because Edge.from_dict already fails on unknown endpoints), then mirror
missing reverse edges. -/
def Topology.from_dict (topo_data : TopoDict) : Except PyErr Topology := do
  let nodeDicts ←
    match dictGet topo_data "nodes" with
    | some (.nodes ds) => pure ds
    | some _ => .error (.typeError "nodes is not iterable as dicts")
    | none => .error (.keyError "nodes")
  let t ← nodeDicts.foldlM (fun (acc : Topology) nd => do
      let n ← Node.from_dict nd
      pure (acc.add_node n)) ({} : Topology)
  let linkDicts ←
    match dictGet topo_data "links" with
    | some (.links ds) => pure ds
    | some _ => .error (.typeError "links is not iterable as dicts")
    | none => .error (.keyError "links")
  let t ← linkDicts.foldlM (fun (acc : Topology) ed => do
      let e ← Edge.from_dict acc ed
      pure (acc.add_edge e.loc e)) t
  -- mirroring pass over the snapshot of the node list
  pure (t.get_node_names.foldl Topology.mirrorNode t)

/-- Topology.to_dict from topology.py: per node a node dict without edges,
and the concatenation of all edge dicts as links, plus the directed and
multigraph flags. -/
def Topology.to_dict (t : Topology) : TopoDict :=
  [("directed", .flag false),
   ("multigraph", .flag false),
   ("nodes", .nodes (t.nodes.map (fun n => n.to_dict false))),
   ("links", .links ((t.nodes.map Node.edges_to_list).flatten))]

/-- An element of the Python list stored in BasePath.path for a NodePath.
Normally each element is a Node reference (modelled by its name); the
addition operator of BasePath wraps the concatenation of two node lists
into a single-element list, so an element can also be a whole Python list
of node references. -/
inductive PathElem where
  | node : String → PathElem
  | plist : List String → PathElem
deriving DecidableEq, Repr

/-- EdgePath from path.py: a list of Edges; the weight is the sum of the
edge weights. -/
abbrev EdgePath := List Edge

/-- EdgePath.get_weight. -/
def EdgePath.get_weight (p : EdgePath) : Int :=
  p.foldl (fun acc e => acc + e.weight) 0

/-- EdgePaths from path.py: a list of EdgePath values kept in ascending
weight order by append. -/
abbrev EdgePaths := List EdgePath

/-- EdgePaths.append from path.py: insert the new path directly before the
first stored path whose weight is greater than or equal to the new weight,
or at the end when no such path exists. -/
def EdgePaths.append (paths : EdgePaths) (p : EdgePath) : EdgePaths :=
  match paths with
  | [] => [p]
  | q :: rest =>
      if p.get_weight ≤ q.get_weight then p :: q :: rest
      else q :: EdgePaths.append rest p

/-- EdgePaths.get_lowest_path_weight: weight of the first stored path, 0
when empty. -/
def EdgePaths.get_lowest_path_weight (paths : EdgePaths) : Int :=
  match paths with
  | [] => 0
  | p :: _ => p.get_weight

/-- Remove the last element of a list, raising IndexError when empty
(Python list.pop on an empty list). -/
def popLast {α : Type} (l : List α) : Except PyErr (List α) :=
  match l with
  | [] => .error .indexError
  | _ => pure l.dropLast

/-- NodePath.get_edges i for the modelled path list: the edges from element
i toward element i+1. A list element is not a Node object and has no edge
attributes (the source would raise AttributeError); this case is not
reachable in any modelled run because expansion is only invoked on paths
whose elements are all node references. -/
def elemEdges (t : Topology) (a b : PathElem) : Except PyErr (List Edge) :=
  match a, b with
  | .node na, .node nb =>
      match t.find? na with
      | some n => pure (n.edges_toward_node nb)
      | none => pure []
  | _, _ => .error (.attributeError "edges_toward_node")

/-- EdgePaths.expand_node_path from path.py: depth-first expansion of a node
path into the edge paths along it. The Python function mutates the shared
accumulator (all_edge_paths) and the current partial edge path (edge_path)
in place and returns either None (at a base case) or the accumulator; here
the returned Boolean is true exactly when Python returns None, and the
final states of the two mutated lists are returned alongside. The Python
slice node_path[1:] builds a fresh NodePath object (whose own discarded
edge expansion does not affect the result); only its node list matters, so
the recursion is over the node list. The recursion depth equals the node
path length, so the structural fuel argument never runs out when it starts
at that length. -/
def expand_node_path (t : Topology) :
    Nat → EdgePaths → EdgePath → List PathElem →
    Except PyErr (Bool × EdgePaths × EdgePath)
  | 0, _, _, _ => .error .fuelExhausted
  | fuel + 1, acc0, ep0, np =>
    match np with
    | n0 :: n1 :: rest => do
        let es ← elemEdges t n0 n1
        -- candidate list comprehension, filtered against edge_path at loop
        -- entry; BasePath.append re-checks before each push
        let cands := es.filter (fun e => ¬ e ∈ ep0)
        let st ← cands.foldlM (fun (st : EdgePaths × EdgePath) e => do
            let (acc, ep) := st
            let ep := if e ∈ ep then ep else ep ++ [e]
            let r ← expand_node_path t fuel acc ep (n1 :: rest)
            let (isNone, acc, ep) := r
            -- a None result or a still empty accumulator are both falsy:
            -- record a copy of the current edge path and pop
            if isNone ∨ acc.isEmpty then do
              let acc2 := EdgePaths.append acc ep
              let ep2 ← popLast ep
              pure (acc2, ep2)
            else pure (acc, ep)) (acc0, ep0)
        let (acc, ep) := st
        -- trailing pop: executed whenever edge_path is non-empty
        let ep2 := if ep.length > 0 then ep.dropLast else ep
        pure (false, acc, ep2)
    | _ => pure (true, acc0, ep0)

/-- EdgePaths.from_node_path: expand when the node path has more than one
element, starting from an empty accumulator and an empty current edge path;
the result is the accumulator (the source falls back to an empty EdgePaths
when the expansion result is falsy, which is the same empty list). -/
def from_node_path (t : Topology) (path : List PathElem) :
    Except PyErr EdgePaths := do
  if path.length > 1 then
    let r ← expand_node_path t path.length [] [] path
    pure r.2.1
  else pure []

/-- NodePath from path.py: the node list, the three protection flags and
the edge paths computed at construction time. -/
structure NodePath where
  path : List PathElem
  down_protecting : Bool := false
  link_protecting : Bool := false
  node_protecting : Bool := false
  edge_paths : EdgePaths := []
deriving DecidableEq, Repr

/-- NodePath.__init__ with expand_edges true (the default): flags start
false and the edge paths are computed by expansion. -/
def NodePath.mkExpand (t : Topology) (path : List PathElem) :
    Except PyErr NodePath := do
  let eps ← from_node_path t path
  pure { path := path, edge_paths := eps }

/-- NodePath.get_lowest_path_weight, also NodePath.get_weight: the weight of
the first stored edge path, 0 when there is none. -/
def NodePath.get_weight (p : NodePath) : Int :=
  EdgePaths.get_lowest_path_weight p.edge_paths

/-- NodePath.get_source: the first element of the path list (IndexError on
an empty path). -/
def NodePath.get_source (p : NodePath) : Except PyErr PathElem :=
  match p.path with
  | [] => .error .indexError
  | x :: _ => pure x

/-- NodePath.get_target: the last element of the path list (IndexError on
an empty path). -/
def NodePath.get_target (p : NodePath) : Except PyErr PathElem :=
  match p.path.getLast? with
  | none => .error .indexError
  | some x => pure x

/-- NodePaths from path.py: a list of NodePath values kept in ascending
weight order by append. -/
abbrev NodePaths := List NodePath

/-- The insertion loop of NodePaths.append: insert directly before the first
stored path of weight greater than or equal to the new weight. -/
def NodePaths.insertWeighted (paths : NodePaths) (p : NodePath) : NodePaths :=
  match paths with
  | [] => [p]
  | q :: rest =>
      if p.get_weight ≤ q.get_weight then p :: q :: rest
      else q :: NodePaths.insertWeighted rest p

/-- NodePaths.validate_endpoints: on a non-empty collection, the source and
target of the new path must equal those of the first stored path, else
ValueError. Python compares node objects by identity and list values
element-wise, which name equality on path elements models. -/
def NodePaths.validate_endpoints (paths : NodePaths) (source target : PathElem) :
    Except PyErr Unit :=
  match paths with
  | [] => pure ()
  | q :: _ => do
      let s ← q.get_source
      let t ← q.get_target
      if source ≠ s ∨ target ≠ t then
        .error (.valueError "Source and target nodes do not match existing paths")
      else pure ()

/-- NodePaths.append from path.py: validate the endpoints, then insert in
weight order unless the path is already a member. The Python membership
test compares NodePath objects by identity; in the modelled runs the only
repeated append of one object is the flag re-append of lfa_paths.py, and
stored paths are pairwise structurally distinct, so the structural test
used here coincides with the identity test on every reachable state. -/
def NodePaths.append (paths : NodePaths) (p : NodePath) :
    Except PyErr NodePaths := do
  let s ← p.get_source
  let t ← p.get_target
  NodePaths.validate_endpoints paths s t
  if p ∈ paths then pure paths
  else pure (NodePaths.insertWeighted paths p)

/-- NodePaths.get_lowest_path_weight: 0 when empty, otherwise the minimum
stored path weight, scanned from HEIGHTEST_WEIGHT. -/
def NodePaths.get_lowest_path_weight (paths : NodePaths) : Int :=
  match paths with
  | [] => 0
  | _ =>
      paths.foldl (fun lowest p =>
        if p.get_weight < lowest then p.get_weight else lowest)
        HEIGHTEST_WEIGHT

/-- NodePaths.get_lowest_weighted_paths: scan keeping only the paths of
minimal weight; a path equal to the current minimum is appended through
NodePaths.append. -/
def NodePaths.get_lowest_weighted_paths (paths : NodePaths) :
    Except PyErr NodePaths :=
  match paths with
  | [] => pure []
  | _ => do
      let st ← paths.foldlM (fun (st : Int × NodePaths) p => do
          let w := p.get_weight
          if w < st.1 then pure (w, [p])
          else if w = st.1 then do
            let l ← NodePaths.append st.2 p
            pure (st.1, l)
          else pure st) (HEIGHTEST_WEIGHT, [])
      pure st.2

/-- List indexing with the Python IndexError. -/
def listGet {α : Type} (l : List α) (i : Nat) : Except PyErr α :=
  match l.get? i with
  | some x => pure x
  | none => .error .indexError

/-- NodePaths.get_first_hop_nodes: the element at index 1 of each lowest
weighted path (no deduplication in the source). -/
def NodePaths.get_first_hop_nodes (paths : NodePaths) :
    Except PyErr (List PathElem) := do
  let lowest ← paths.get_lowest_weighted_paths
  lowest.mapM (fun p => listGet p.path 1)

/-- The nested result dict self.paths of the path engines, keyed by source
node and then by target node. Python keys the dicts by Node object; node
names are the identities here. -/
abbrev PathsMap := List (String × List (String × NodePaths))

/-- AllPaths.get_paths_between: empty NodePaths when the source or target
key is absent. -/
def AllPaths.get_paths_between (m : PathsMap) (source target : String) :
    NodePaths :=
  match dictGet m source with
  | none => []
  | some inner => (dictGet inner target).getD []

/-- The neighbour list of the node object with the given name. Every node
reached by the engines lives in the topology dict. -/
def Topology.get_neighbours (t : Topology) (name : String) : List String :=
  ((t.find? name).map Node.neighbours).getD []

/-- AllPaths.calculate_nodepaths from all_paths.py: recursive DFS over the
neighbours of the last path node. The source mutates the shared all_paths
and current_path arguments in place and returns all_paths; both final
states are returned here. The recursion depth is bounded in every run by
the number of topology nodes, rendered by a fuel argument; fuel exhaustion
is an artificial error never reached when fuel exceeds the node count. -/
def AllPaths.calculate_nodepaths (t : Topology) :
    (fuel : Nat) → NodePaths → List PathElem → String → String →
    Except PyErr (NodePaths × List PathElem)
  | 0, _, _, _, _ => .error .fuelExhausted
  | fuel + 1, all_paths0, current_path0, source, target => do
      -- set_source when the current path is empty
      let current_path :=
        if current_path0.isEmpty then [PathElem.node source] else current_path0
      let penult ←
        match current_path.getLast? with
        | none => .error .indexError
        | some x => pure x
      let nbs ←
        match penult with
        | .node nm => pure (t.get_neighbours nm)
        | .plist _ => .error (.attributeError "get_neighbours")
      let st ← nbs.foldlM (fun (st : NodePaths × List PathElem) nb => do
          let (all_paths, current_path) := st
          if PathElem.node nb ∈ current_path then return st
          -- BasePath.append: the membership test just failed, so it appends
          let current_path := current_path ++ [PathElem.node nb]
          if nb = target then do
            -- record current_path.copy(): a fresh NodePath built with
            -- expand_edges at its default, so edge paths are computed
            let cp ← NodePath.mkExpand t current_path
            let all_paths ← NodePaths.append all_paths cp
            return (all_paths, current_path.dropLast)
          AllPaths.calculate_nodepaths t fuel all_paths current_path source target)
        (all_paths0, current_path)
      let (all_paths, current_path) := st
      let current_path :=
        if current_path.length > 1 then current_path.dropLast else current_path
      pure (all_paths, current_path)

/-- AllPaths.calculate_paths: one DFS per ordered pair of distinct nodes,
with fresh empty all_paths and current_path arguments, stored in the nested
result dict. -/
def AllPaths.calculate_paths (t : Topology) (fuel : Nat) :
    Except PyErr PathsMap := do
  t.nodes.foldlM (fun m source => do
      let inner ← t.nodes.foldlM (fun inner target => do
          if source.name = target.name then return inner
          let r ← AllPaths.calculate_nodepaths t fuel [] [] source.name
            target.name
          pure (dictSet inner target.name r.1)) []
      pure (dictSet m source.name inner)) []

/-- SpfPaths.calculate_paths from spf_paths.py: for every ordered pair of
distinct nodes keep only the lowest weighted paths of the all paths
result. -/
def SpfPaths.calculate_paths (t : Topology) (all_paths : PathsMap) :
    Except PyErr PathsMap := do
  t.nodes.foldlM (fun m source => do
      let inner ← t.nodes.foldlM (fun inner target => do
          if source.name = target.name then return inner
          let l ← (AllPaths.get_paths_between all_paths source.name
            target.name).get_lowest_weighted_paths
          pure (dictSet inner target.name l)) []
      pure (dictSet m source.name inner)) []

/-- SpfPaths.get_path_cost_between from spf_paths.py: KeyError when the
source key is absent, ValueError (the No Path error) when the target key is
absent from the source entry, otherwise the lowest path weight of the
stored NodePaths, which is 0 when that collection is empty. -/
def SpfPaths.get_path_cost_between (m : PathsMap) (source target : String) :
    Except PyErr Int := do
  let inner ←
    match dictGet m source with
    | none => .error (.keyError source)
    | some i => pure i
  match dictGet inner target with
  | none => .error (.valueError "No paths between")
  | some paths => pure paths.get_lowest_path_weight

/-- The node name held by a path element; a Python list element is not
hashable and cannot be used as a key in the result dicts. -/
def elemName : PathElem → Except PyErr String
  | .node nm => pure nm
  | .plist _ => .error (.typeError "unhashable list element")

/-- The candidate loop body of LfaPaths.calculate_nodepaths from
lfa_paths.py: a candidate path from the neighbour to the target is wrapped
into a NodePath starting at the source and appended once per earned flag;
the node flag is only earned when the pre-failure first hops do not overlap
the candidate paths. The three appends of the source pass the same Python
object, whose flag attributes are mutated between the appends, and the
membership test of NodePaths.append sees that object after the first
successful append, so the appends after the first are no-ops on the list;
the net effect modelled here is a single stored entry carrying the final
flag state of the object. -/
def LfaPaths.lfa_emit (t : Topology) (source : String) (fhs : List PathElem)
    (link_prot down_prot node_prot : Bool) (ntps : NodePaths)
    (acc : NodePaths) (ntp : NodePath) : Except PyErr NodePaths := do
  let lfa_path ← NodePath.mkExpand t (PathElem.node source :: ntp.path)
  -- overlap of the pre-failure first hops with any candidate path, computed
  -- in the node branch of the source and independent of the loop iteration
  let overlap := fhs.flatMap (fun fh =>
    (ntps.filter (fun q => fh ∈ q.path)).map (fun _ => fh))
  let final : NodePath := { lfa_path with
    link_protecting := link_prot,
    down_protecting := down_prot,
    node_protecting := node_prot && overlap.isEmpty }
  if link_prot || down_prot || (node_prot && overlap.isEmpty) then
    NodePaths.append acc final
  else pure acc

/-- The neighbour loop body of LfaPaths.calculate_nodepaths from
lfa_paths.py. Flags are computed from the spf pair costs, skipping the
neighbour when it is the target, a primary next hop, or when one of the
five pair costs is falsy. -/
def LfaPaths.lfa_process_nei (t : Topology) (spf : PathsMap)
    (source target : String) (acc : NodePaths) (nei : String) :
    Except PyErr NodePaths :=
  -- target directly connected
  if nei = target then pure acc
  else
    match (AllPaths.get_paths_between spf source
        target).get_first_hop_nodes with
    | .error e => .error e
    | .ok fhs =>
      -- the neighbour is a next hop of the current best paths
      if PathElem.node nei ∈ fhs then pure acc
      else
        match listGet (AllPaths.get_paths_between spf source target) 0 with
        | .error e => .error e
        | .ok any_best =>
          match listGet any_best.path 1 with
          | .error e => .error e
          | .ok nhElem =>
            match elemName nhElem with
            | .error e => .error e
            | .ok nh =>
              -- the five walrus cost checks of the source, each skipping
              -- the neighbour when the cost is falsy; the source binds each
              -- cost once, repeating the pure lookup here is identical
              if (AllPaths.get_paths_between spf nei
                  target).get_lowest_path_weight = 0 then pure acc
              else if (AllPaths.get_paths_between spf nei
                  source).get_lowest_path_weight = 0 then pure acc
              else if (AllPaths.get_paths_between spf source
                  target).get_lowest_path_weight = 0 then pure acc
              else if (AllPaths.get_paths_between spf nei
                  nh).get_lowest_path_weight = 0 then pure acc
              else if (AllPaths.get_paths_between spf nh
                  target).get_lowest_path_weight = 0 then pure acc
              else
                -- flags from the three RFC5286 inequalities
                (AllPaths.get_paths_between spf nei target).foldlM
                  (LfaPaths.lfa_emit t source fhs
                    (decide ((AllPaths.get_paths_between spf nei
                        target).get_lowest_path_weight <
                      (AllPaths.get_paths_between spf nei
                        source).get_lowest_path_weight +
                      (AllPaths.get_paths_between spf source
                        target).get_lowest_path_weight))
                    (decide ((AllPaths.get_paths_between spf nei
                        target).get_lowest_path_weight <
                      (AllPaths.get_paths_between spf source
                        target).get_lowest_path_weight))
                    (decide ((AllPaths.get_paths_between spf nei
                        target).get_lowest_path_weight <
                      (AllPaths.get_paths_between spf nei
                        nh).get_lowest_path_weight +
                      (AllPaths.get_paths_between spf nh
                        target).get_lowest_path_weight))
                    (AllPaths.get_paths_between spf nei target)) acc

/-- LfaPaths.calculate_nodepaths from lfa_paths.py: nothing when no spf path
joins the pair, otherwise the neighbour loop over the source node. -/
def LfaPaths.calculate_nodepaths (t : Topology) (spf : PathsMap)
    (source target : String) : Except PyErr NodePaths :=
  if (AllPaths.get_paths_between spf source target).isEmpty then pure []
  else
    (t.get_neighbours source).foldlM
      (LfaPaths.lfa_process_nei t spf source target) []

/-- The trombone test of rlfa_paths.py: some hop of some source-to-PQ path,
excluding its last node, appears in some PQ-to-target path, excluding its
first node. -/
def RlfaPaths.tromboneSkip (sps qds : NodePaths) : Bool :=
  sps.any (fun sp => (sp.path.dropLast).any (fun hop =>
    qds.any (fun qd => hop ∈ qd.path.tail)))

/-- BasePath.__add__ from path.py, as invoked on two NodePath values: the
new object is constructed with path=[self.path + other.path], a
single-element list holding the concatenated Python list of node
references. The operands in every modelled run are spf paths whose elements
are plain node references. Expansion at construction sees a length-one path
and stores no edge paths. -/
def NodePath.add (t : Topology) (p q : NodePath) : Except PyErr NodePath := do
  let names ← (p.path ++ q.path).mapM elemName
  NodePath.mkExpand t [PathElem.plist names]

/-- RlfaPaths.calculate_nodepaths from rlfa_paths.py: the node-protecting
rLFA computation. PQ nodes that are primary first hops are skipped; a PQ
node whose target-side paths overlap the pre-failure first hops is only
logged; otherwise, unless the trombone filter rejects the pair, one backup
path per source-side and target-side path combination is built with the
addition operator and appended after set_link_protecting(True) - the source
never calls set_node_protecting on these paths. -/
def RlfaPaths.calculate_nodepaths (t : Topology) (spf : PathsMap)
    (source target : String) (pq_nodes : List String) (trombone : Bool) :
    Except PyErr NodePaths := do
  let stPaths := AllPaths.get_paths_between spf source target
  let fhs ← stPaths.get_first_hop_nodes
  pq_nodes.foldlM (fun paths pq => do
      if PathElem.node pq ∈ fhs then return paths
      let sps := AllPaths.get_paths_between spf source pq
      let qds := AllPaths.get_paths_between spf pq target
      let overlap := fhs.flatMap (fun fh =>
        (qds.filter (fun q => fh ∈ q.path)).map (fun _ => fh))
      if ¬ overlap.isEmpty then return paths
      if trombone = false ∧ RlfaPaths.tromboneSkip sps qds then return paths
      sps.foldlM (fun paths sp =>
        qds.foldlM (fun paths qd => do
            let backup ← NodePath.add t sp qd
            let backup := { backup with link_protecting := true }
            NodePaths.append paths backup) paths) paths) []

end PyFRR

namespace ObjModel

/-
  Heap model of Node.__init__ from node.py for the default-argument
  aliasing of the edges dict and the neighbours list. Python evaluates the
  default values of edges and neighbours once, at function definition time,
  producing one dict object and one list object that every defaulted call
  shares; Node.from_dict instead passes freshly created containers. The
  containers live in an explicit store and nodes hold references into it.
-/

/-- A node object: its name, SID and the references of its two mutable
containers. -/
structure Node where
  name : String
  node_sid : Option Int := none
  edgesRef : Nat
  neighboursRef : Nat
deriving DecidableEq, Repr

/-- An edge object holding references to its two endpoint node objects. -/
structure Edge where
  loc : Node
  remote : Node
  adj_sid : Option Int := none
  weight : Int := 0
deriving DecidableEq, Repr

/-- The store of container objects: per reference, an edges dict keyed by
remote node name, and a neighbours list of node names. Reference 0 is the
default edges dict and reference 1 the default neighbours list of
Node.__init__. -/
structure Store where
  edgeDicts : List (Nat × List (String × List Edge))
  neighLists : List (Nat × List String)
  nextRef : Nat
deriving Repr

/-- The store at interpreter start: the two default containers exist and
are empty. -/
def Store.init : Store :=
  { edgeDicts := [(0, [])], neighLists := [(1, [])], nextRef := 2 }

/-- Read an edges dict from the store. -/
def Store.edgesOf (st : Store) (r : Nat) : List (String × List Edge) :=
  match st.edgeDicts.lookup r with
  | some d => d
  | none => []

/-- Read a neighbours list from the store. -/
def Store.neighOf (st : Store) (r : Nat) : List String :=
  match st.neighLists.lookup r with
  | some l => l
  | none => []

/-- Overwrite an edges dict in the store. -/
def Store.setEdges (st : Store) (r : Nat) (d : List (String × List Edge)) :
    Store :=
  { st with edgeDicts := st.edgeDicts.map (fun pr =>
      if pr.1 = r then (pr.1, d) else pr) }

/-- Overwrite a neighbours list in the store. -/
def Store.setNeigh (st : Store) (r : Nat) (l : List String) : Store :=
  { st with neighLists := st.neighLists.map (fun pr =>
      if pr.1 = r then (pr.1, l) else pr) }

/-- Node construction without explicit edges and neighbours arguments: the
object binds the two shared default containers. -/
def mkNodeDefault (name : String) : Node :=
  { name := name, edgesRef := 0, neighboursRef := 1 }

/-- Node.from_dict: passes fresh empty containers, allocated here. -/
def mkNodeFresh (st : Store) (name : String) : Node × Store :=
  let n : Node := { name := name, edgesRef := st.nextRef,
                    neighboursRef := st.nextRef + 1 }
  (n, { edgeDicts := st.edgeDicts ++ [(st.nextRef, [])],
        neighLists := st.neighLists ++ [(st.nextRef + 1, [])],
        nextRef := st.nextRef + 2 })

/-- Node.add_neighbour: append the neighbour unless present or equal to the
node itself. -/
def add_neighbour (st : Store) (selfN nb : Node) : Store :=
  let cur := st.neighOf selfN.neighboursRef
  if nb.name ∈ cur ∨ nb = selfN then st
  else st.setNeigh selfN.neighboursRef (cur ++ [nb.name])

/-- Node.add_edge from node.py over the store: create the per-remote edge
list and record the neighbour relation on both endpoints when the remote is
new, then append the edge unless present. -/
def add_edge (st : Store) (selfN : Node) (edge : Edge) : Store :=
  let d := st.edgesOf selfN.edgesRef
  let st :=
    if (PyFRR.dictGet d edge.remote.name).isSome then st
    else
      let st := st.setEdges selfN.edgesRef
        (PyFRR.dictSet d edge.remote.name [])
      let st := add_neighbour st selfN edge.remote
      add_neighbour st edge.remote edge.loc
  let d := st.edgesOf selfN.edgesRef
  let cur := (PyFRR.dictGet d edge.remote.name).getD []
  if edge ∈ cur then st
  else st.setEdges selfN.edgesRef
    (PyFRR.dictSet d edge.remote.name (cur ++ [edge]))

/-- Node.edges_toward_node over the store. -/
def edges_toward_node (st : Store) (selfN : Node) (node : Node) :
    List Edge :=
  (PyFRR.dictGet (st.edgesOf selfN.edgesRef) node.name).getD []

/-- Node.get_neighbours over the store. -/
def get_neighbours (st : Store) (selfN : Node) : List String :=
  st.neighOf selfN.neighboursRef

end ObjModel

namespace PyFRR

/-
  Concrete program states used as inputs of the claim theorems. Each
  topology value is the state the Python objects reach after
  Topology.from_dict on the corresponding input: every link present in both
  directions and the neighbour lists symmetric.
-/

/-- Two-node topology a - b with weight 1, for the DFS frame claim. -/
def topoT2 : Topology :=
  ⟨[{ name := "a", edges := [("b", [{ loc := "a", remote := "b", weight := 1 }])],
      neighbours := ["b"] },
    { name := "b", edges := [("a", [{ loc := "b", remote := "a", weight := 1 }])],
      neighbours := ["a"] }]⟩

/-- Two isolated nodes a and b, a disconnected pair. -/
def topoT3 : Topology := ⟨[{ name := "a" }, { name := "b" }]⟩

/-- Diamond S, A, B, D: S-A weight 1, A-D weight 1, S-B weight 2,
B-D weight 1. The best path from S to D is S, A, D with first hop A, and B
is a neighbour of S satisfying all three RFC5286 inequalities. -/
def topoT8 : Topology :=
  ⟨[{ name := "S",
      edges := [("A", [{ loc := "S", remote := "A", weight := 1 }]),
                ("B", [{ loc := "S", remote := "B", weight := 2 }])],
      neighbours := ["A", "B"] },
    { name := "A",
      edges := [("S", [{ loc := "A", remote := "S", weight := 1 }]),
                ("D", [{ loc := "A", remote := "D", weight := 1 }])],
      neighbours := ["S", "D"] },
    { name := "B",
      edges := [("S", [{ loc := "B", remote := "S", weight := 2 }]),
                ("D", [{ loc := "B", remote := "D", weight := 1 }])],
      neighbours := ["S", "D"] },
    { name := "D",
      edges := [("A", [{ loc := "D", remote := "A", weight := 1 }]),
                ("B", [{ loc := "D", remote := "B", weight := 1 }])],
      neighbours := ["A", "B"] }]⟩

/-- Square S, E, D, Q: S-E weight 1, E-D weight 1, S-Q weight 1, Q-D
weight 2. The best path from S to D is S, E, D with first hop E, and Q is a
PQ candidate whose repair segments are S, Q and Q, D. -/
def topoTQ : Topology :=
  ⟨[{ name := "S",
      edges := [("E", [{ loc := "S", remote := "E", weight := 1 }]),
                ("Q", [{ loc := "S", remote := "Q", weight := 1 }])],
      neighbours := ["E", "Q"] },
    { name := "E",
      edges := [("S", [{ loc := "E", remote := "S", weight := 1 }]),
                ("D", [{ loc := "E", remote := "D", weight := 1 }])],
      neighbours := ["S", "D"] },
    { name := "D",
      edges := [("E", [{ loc := "D", remote := "E", weight := 1 }]),
                ("Q", [{ loc := "D", remote := "Q", weight := 2 }])],
      neighbours := ["E", "Q"] },
    { name := "Q",
      edges := [("S", [{ loc := "Q", remote := "S", weight := 1 }]),
                ("D", [{ loc := "Q", remote := "D", weight := 2 }])],
      neighbours := ["S", "D"] }]⟩

/-- The all paths result of the two isolated nodes. -/
def allT3 : PathsMap := (AllPaths.calculate_paths topoT3 8).toOption.getD []

/-- The spf result of the two isolated nodes. -/
def spfT3 : PathsMap := (SpfPaths.calculate_paths topoT3 allT3).toOption.getD []

/-- The all paths result of the diamond topology. -/
def allT8 : PathsMap := (AllPaths.calculate_paths topoT8 8).toOption.getD []

/-- The spf result of the diamond topology. -/
def spfT8 : PathsMap := (SpfPaths.calculate_paths topoT8 allT8).toOption.getD []

/-- The all paths result of the square topology. -/
def allTQ : PathsMap := (AllPaths.calculate_paths topoTQ 8).toOption.getD []

/-- The spf result of the square topology. -/
def spfTQ : PathsMap := (SpfPaths.calculate_paths topoTQ allTQ).toOption.getD []

instance {ε α : Type} [DecidableEq ε] [DecidableEq α] :
    DecidableEq (Except ε α) := fun x y =>
  match x, y with
  | .ok a, .ok b =>
      if h : a = b then isTrue (by rw [h])
      else isFalse (by intro hc; cases hc; exact h rfl)
  | .error a, .error b =>
      if h : a = b then isTrue (by rw [h])
      else isFalse (by intro hc; cases hc; exact h rfl)
  | .ok _, .error _ => isFalse (by intro hc; cases hc)
  | .error _, .ok _ => isFalse (by intro hc; cases hc)

/-- NodePaths.append with the raised ValueError caught by the caller: the
raise happens before any mutation, so the collection is unchanged on
failure. -/
def NodePaths.appendCaught (paths : NodePaths) (p : NodePath) : NodePaths :=
  match NodePaths.append paths p with
  | .ok r => r
  | .error _ => paths

/-- The element at index 1 of the first stored spf path of a pair: the
primary next hop representative used by the third RFC5286 inequality of
lfa_paths.py (any_best_path[1]). -/
def primaryNextHop (spf : PathsMap) (source target : String) :
    Option PathElem :=
  match (AllPaths.get_paths_between spf source target).head? with
  | none => none
  | some p => p.path.get? 1

/-- All edge weights of the topology are strictly positive. -/
def Topology.positive_weights (t : Topology) : Prop :=
  ∀ n ∈ t.nodes, ∀ pr ∈ n.edges, ∀ e ∈ pr.2, 0 < e.weight

instance (t : Topology) : Decidable t.positive_weights := by
  unfold Topology.positive_weights; infer_instance

/-- Every path stored in the nested paths map starts at the node whose entry
holds it: the invariant of every spf result, every stored path being a DFS
path from its source. -/
def SpfHeads (spf : PathsMap) : Prop :=
  ∀ pr ∈ spf, ∀ pr2 ∈ pr.2, ∀ p ∈ pr2.2,
    p.path.head? = some (.node pr.1)

instance (spf : PathsMap) : Decidable (SpfHeads spf) := by
  unfold SpfHeads; infer_instance

/-- The single LFA path of the diamond topology for the pair S, D: the node
sequence S, B, D carrying all three protection flags. -/
def lfaT8path : NodePath :=
  { path := [.node "S", .node "B", .node "D"],
    down_protecting := true,
    link_protecting := true,
    node_protecting := true,
    edge_paths := [[{ loc := "S", remote := "B", weight := 2 },
                    { loc := "B", remote := "D", weight := 1 }]] }

/-- The single backup path emitted by the node-protecting rLFA computation
of the square topology for the pair S, D through PQ node Q: the addition
operator wraps the concatenated node list into one element, and only the
link flag is set. -/
def rlfaTQpath : NodePath :=
  { path := [.plist ["S", "Q", "Q", "D"]],
    link_protecting := true,
    edge_paths := [] }

/-- The single recorded path of the DFS over the two-node topology. -/
def t2path : NodePath :=
  { path := [.node "a", .node "b"],
    edge_paths := [[{ loc := "a", remote := "b", weight := 1 }]] }

/-- The spf path from B to D of the diamond topology, the candidate path
of the LFA emission step. -/
def ntpT8 : NodePath :=
  { path := [.node "B", .node "D"],
    edge_paths := [[{ loc := "B", remote := "D", weight := 1 }]] }

/-- A well-formed one-node input dict. -/
def exInputC1 : TopoDict :=
  [("nodes", .nodes [[("id", .scalar (.vstr "A"))]]),
   ("links", .links [])]

/-- The topology built from the one-node input dict. -/
def exTopoC1 : Topology := ⟨[{ name := "A" }]⟩

/-- The spf pair cost as the LFA engine reads it: the lowest stored path
weight of the pair entry of the spf result. -/
def spf_cost (spf : PathsMap) (a b : String) : Int :=
  (AllPaths.get_paths_between spf a b).get_lowest_path_weight

/-- The tagging property claimed for one LFA path of the pair (source,
target), with N the second node of the path: the link flag implies the
link-protecting inequality, the downstream flag the downstream inequality,
and the node flag the node-protecting inequality against the primary next
hop together with the absence of any pre-failure first hop on any spf path
from N to the target. -/
def LfaTagOK (spf : PathsMap) (source target : String) (p : NodePath) :
    Prop :=
  ∀ N : String, p.path.get? 1 = some (.node N) →
    (p.link_protecting = true →
      spf_cost spf N target <
        spf_cost spf N source + spf_cost spf source target) ∧
    (p.down_protecting = true →
      spf_cost spf N target < spf_cost spf source target) ∧
    (p.node_protecting = true →
      (∃ E : String, primaryNextHop spf source target = some (.node E) ∧
        spf_cost spf N target <
          spf_cost spf N E + spf_cost spf E target) ∧
      (∀ fhs, (AllPaths.get_paths_between spf source
          target).get_first_hop_nodes = .ok fhs →
        ∀ fh ∈ fhs, ∀ q ∈ AllPaths.get_paths_between spf N target,
          ¬ fh ∈ q.path))

end PyFRR

namespace ObjModel

/-- The default-argument aliasing scenario: two nodes constructed without
explicit containers, one node with fresh containers, and one edge added to
the first node. -/
def aliasNodeA : Node := mkNodeDefault "a"

/-- The second defaulted node: it binds the same two container references
as the first. -/
def aliasNodeB : Node := mkNodeDefault "b"

/-- The fresh-container node c and the store after its construction. -/
def aliasFreshC : Node × Store := mkNodeFresh Store.init "c"

/-- The edge from a toward c. -/
def aliasEdgeAC : Edge := { loc := aliasNodeA, remote := aliasFreshC.1 }

/-- The store after a.add_edge of the edge toward c. -/
def aliasStoreAfter : Store := add_edge aliasFreshC.2 aliasNodeA aliasEdgeAC

/-- The independent scenario: three nodes all built through Node.from_dict
(fresh containers) in sequence from the initial store. -/
def freshA : Node × Store := mkNodeFresh Store.init "a"

/-- The second fresh node. -/
def freshB : Node × Store := mkNodeFresh freshA.2 "b"

/-- The third fresh node. -/
def freshC : Node × Store := mkNodeFresh freshB.2 "c"

/-- The edge from the fresh a toward the fresh c. -/
def freshEdgeAC : Edge := { loc := freshA.1, remote := freshC.1 }

/-- The store after add_edge on the fresh a. -/
def freshStoreAfter : Store := add_edge freshC.2 freshA.1 freshEdgeAC

end ObjModel

namespace PyFRR

/-
  Helper lemmas shared by the claim theorems.
-/

theorem dictGet_mem {α : Type} (d : List (String × α)) (k : String) (v : α)
    (h : dictGet d k = some v) : (k, v) ∈ d := by
  induction d with
  | nil => simp [dictGet] at h
  | cons pr rest ih =>
      obtain ⟨k2, v2⟩ := pr
      rw [dictGet] at h
      by_cases hk : k2 = k
      · rw [if_pos hk] at h
        injection h with h
        subst hk
        subst h
        exact List.Mem.head _
      · rw [if_neg hk] at h
        exact List.Mem.tail _ (ih h)

theorem get_paths_between_heads (spf : PathsMap) (s tg : String)
    (hheads : SpfHeads spf) :
    ∀ p ∈ AllPaths.get_paths_between spf s tg,
      p.path.head? = some (.node s) := by
  intro p hp
  unfold AllPaths.get_paths_between at hp
  split at hp
  · simp at hp
  · rename_i inner hinner
    cases hv : dictGet inner tg with
    | none => rw [hv] at hp; simp at hp
    | some v =>
        rw [hv] at hp
        simp at hp
        exact hheads (s, inner) (dictGet_mem spf s inner hinner)
          (tg, v) (dictGet_mem inner tg v hv) p hp

theorem insertWeighted_mem (paths : NodePaths) (p x : NodePath)
    (h : x ∈ NodePaths.insertWeighted paths p) : x = p ∨ x ∈ paths := by
  induction paths with
  | nil =>
      rw [NodePaths.insertWeighted] at h
      simp at h
      exact Or.inl h
  | cons q rest ih =>
      rw [NodePaths.insertWeighted] at h
      split at h
      · simp only [List.mem_cons] at h
        rcases h with h | h | h
        · exact Or.inl h
        · exact Or.inr (by simp [h])
        · exact Or.inr (List.mem_cons_of_mem q h)
      · simp only [List.mem_cons] at h
        rcases h with h | h
        · exact Or.inr (by simp [h])
        · rcases ih h with h2 | h2
          · exact Or.inl h2
          · exact Or.inr (List.mem_cons_of_mem q h2)

theorem insertWeighted_length (paths : NodePaths) (p : NodePath) :
    (NodePaths.insertWeighted paths p).length = paths.length + 1 := by
  induction paths with
  | nil => simp [NodePaths.insertWeighted]
  | cons q rest ih =>
      rw [NodePaths.insertWeighted]
      split
      · simp
      · simp [ih]

theorem NodePaths.append_cases (paths : NodePaths) (p : NodePath)
    (r : NodePaths) (h : NodePaths.append paths p = .ok r) :
    r = paths ∨ r = NodePaths.insertWeighted paths p := by
  unfold NodePaths.append at h
  cases hs : p.get_source with
  | error e => rw [hs] at h; simp [Bind.bind, Except.bind] at h
  | ok s =>
      rw [hs] at h
      simp only [Bind.bind, Except.bind] at h
      cases ht : p.get_target with
      | error e => rw [ht] at h; simp at h
      | ok tg =>
          rw [ht] at h
          simp only [] at h
          cases hv : NodePaths.validate_endpoints paths s tg with
          | error e => rw [hv] at h; simp at h
          | ok u =>
              rw [hv] at h
              simp only [] at h
              split at h
              · simp [pure, Except.pure] at h; exact Or.inl h.symm
              · simp [pure, Except.pure] at h; exact Or.inr h.symm

theorem NodePaths.append_mem (paths : NodePaths) (p : NodePath)
    (r : NodePaths) (h : NodePaths.append paths p = .ok r) :
    ∀ x ∈ r, x = p ∨ x ∈ paths := by
  intro x hx
  rcases NodePaths.append_cases paths p r h with h2 | h2
  · exact Or.inr (h2 ▸ hx)
  · exact insertWeighted_mem paths p x (h2 ▸ hx)

theorem foldlM_except_invariant {α β : Type} (P : α → Prop)
    (f : α → β → Except PyErr α) :
    ∀ (l : List β), (∀ b ∈ l, ∀ a r, P a → f a b = .ok r → P r) →
    ∀ (a0 r : α), P a0 → l.foldlM f a0 = .ok r → P r := by
  intro l
  induction l with
  | nil =>
      intro hf a0 r h0 hr
      simp [List.foldlM, pure, Except.pure] at hr
      exact hr ▸ h0
  | cons b rest ih =>
      intro hf a0 r h0 hr
      rw [List.foldlM_cons] at hr
      cases hstep : f a0 b with
      | error e => rw [hstep] at hr; simp [Bind.bind, Except.bind] at hr
      | ok a1 =>
          rw [hstep] at hr
          simp [Bind.bind, Except.bind] at hr
          exact ih (fun b2 hb2 => hf b2 (List.mem_cons_of_mem b hb2)) a1 r
            (hf b (List.mem_cons_self b rest) a0 a1 h0 hstep) hr

/-- Claim C1: for every Topology built from a well-formed input dict,
serialising with Topology.to_dict and re-loading with Topology.from_dict
yields an equal topology. The code fails this: Node.to_dict writes the keys
name and node_side while Node.from_dict reads the keys id and node_sid, so
re-loading the serialised form of the one-node topology raises KeyError on
the key id instead of rebuilding the topology. -/
theorem claim_C1_roundtrip_raises :
    Topology.from_dict exInputC1 = Except.ok exTopoC1 ∧
    Topology.from_dict (Topology.to_dict exTopoC1) =
      Except.error (PyErr.keyError "id") :=
  ⟨rfl, rfl⟩

/-- Claim C2: every path emitted by the node-protecting rLFA computation is
claimed to be marked node-protecting. The code marks them link-protecting
instead: on the square topology with PQ node Q, the single emitted backup
path for the pair S, D has node_protecting false and link_protecting true,
because RlfaPaths.calculate_nodepaths calls set_link_protecting. -/
theorem claim_C2_rlfa_not_node_marked :
    RlfaPaths.calculate_nodepaths topoTQ spfTQ "S" "D" ["Q"] false =
      Except.ok [rlfaTQpath] ∧
    rlfaTQpath.node_protecting = false ∧
    rlfaTQpath.link_protecting = true :=
  ⟨rfl, rfl, rfl⟩

/-- Claim C3 counterexample: on the two isolated nodes a and b the spf
result holds an empty collection for the ordered pair, and
get_path_cost_between returns 0 instead of failing with the No Path
error. -/
theorem claim_C3_counterexample :
    AllPaths.get_paths_between spfT3 "a" "b" = ([] : NodePaths) ∧
    SpfPaths.get_path_cost_between spfT3 "a" "b" = Except.ok 0 :=
  ⟨rfl, rfl⟩

/-- Claim C3 as amended: for a disconnected pair whose entry is present in
the computed spf map (as calculate_paths guarantees for every ordered pair
of distinct nodes), get_path_cost_between returns 0, the lowest path weight
of an empty NodePaths; the No Path ValueError is reserved for a target key
that is absent from the source entry. -/
theorem claim_C3_amended (m : PathsMap) (source target : String)
    (inner : List (String × NodePaths))
    (h1 : dictGet m source = some inner)
    (h2 : dictGet inner target = some ([] : NodePaths)) :
    SpfPaths.get_path_cost_between m source target = Except.ok 0 := by
  unfold SpfPaths.get_path_cost_between
  rw [h1]
  simp only [pure, Except.pure, Bind.bind, Except.bind]
  rw [h2]
  rfl

/-- Witness for the amended claim C3 at the two isolated nodes. -/
theorem claim_C3_amended_witness :
    (dictGet spfT3 "a" = some [("b", ([] : NodePaths))] ∧
     dictGet [("b", ([] : NodePaths))] "b" = some ([] : NodePaths)) ∧
    SpfPaths.get_path_cost_between spfT3 "a" "b" = Except.ok 0 :=
  ⟨⟨rfl, rfl⟩, claim_C3_amended spfT3 "a" "b" [("b", [])] rfl rfl⟩

/-- Claim C6 counterexample: appending an edge path whose weight equals the
stored path weight inserts the new path before the existing equal-weight
path, not after it. -/
theorem claim_C6_counterexample :
    EdgePaths.append [[{ loc := "a", remote := "b", weight := 5 }]]
        [{ loc := "a", remote := "c", weight := 5 }] =
      [[{ loc := "a", remote := "c", weight := 5 }],
       [{ loc := "a", remote := "b", weight := 5 }]] ∧
    EdgePath.get_weight [{ loc := "a", remote := "b", weight := 5 }] =
      EdgePath.get_weight [{ loc := "a", remote := "c", weight := 5 }] ∧
    ([{ loc := "a", remote := "b", weight := 5 }] : EdgePath) ≠
      [{ loc := "a", remote := "c", weight := 5 }] :=
  ⟨rfl, rfl, by decide⟩

/-- Claim C6 as amended: EdgePaths.append inserts the new path at the first
position whose stored weight is greater than or equal to the new weight,
that is after all strictly lighter paths and before every existing
equal-weight path. -/
theorem claim_C6_amended (paths : EdgePaths) (p : EdgePath) :
    EdgePaths.append paths p =
      paths.takeWhile (fun q => decide (q.get_weight < p.get_weight)) ++
      p :: paths.dropWhile (fun q => decide (q.get_weight < p.get_weight)) := by
  induction paths with
  | nil => simp [EdgePaths.append]
  | cons q rest ih =>
      rw [EdgePaths.append]
      by_cases h : p.get_weight ≤ q.get_weight
      · have hq : ¬ q.get_weight < p.get_weight := not_lt.mpr h
        simp [h, List.takeWhile_cons, List.dropWhile_cons, hq]
      · have hq : q.get_weight < p.get_weight := lt_of_not_le h
        simp [h, List.takeWhile_cons, List.dropWhile_cons, hq, ih]

/-- Claim C7: loading a link dict without a weight key is claimed to
succeed with the default weight 0. The code raises instead: Edge.from_dict
passes weight None, which fails the int type check of Edge.__init__ with
ValueError, while a direct construction that keeps the declared default
receives DEFAULT_WEIGHT and succeeds with weight 0. -/
theorem claim_C7_missing_weight_raises :
    Edge.from_dict topoT3 [("source", .vstr "a"), ("target", .vstr "b")] =
      Except.error (PyErr.valueError "weight must be int") ∧
    Edge.init "a" "b" ScalarVal.vnone (ScalarVal.vint DEFAULT_WEIGHT) =
      Except.ok { loc := "a", remote := "b", adj_sid := none, weight := 0 } :=
  ⟨rfl, rfl⟩

/-- Claim C8 counterexample: on the diamond topology the candidate path
from B to D satisfies both the link-protecting and the downstream
inequalities, yet the LFA collection for the pair S, D holds a single
entry - the same NodePath object re-appended per flag is deduplicated - so
no two distinct link and downstream copies exist. -/
theorem claim_C8_counterexample :
    LfaPaths.calculate_nodepaths topoT8 spfT8 "S" "D" =
      Except.ok [lfaT8path] ∧
    (AllPaths.get_paths_between spfT8 "B" "D").get_lowest_path_weight <
      (AllPaths.get_paths_between spfT8 "B" "S").get_lowest_path_weight +
      (AllPaths.get_paths_between spfT8 "S" "D").get_lowest_path_weight ∧
    (AllPaths.get_paths_between spfT8 "B" "D").get_lowest_path_weight <
      (AllPaths.get_paths_between spfT8 "S" "D").get_lowest_path_weight :=
  ⟨rfl, by decide, by decide⟩

theorem mkExpand_ok (t : Topology) (path : List PathElem) (p : NodePath)
    (h : NodePath.mkExpand t path = .ok p) :
    p.path = path ∧ p.link_protecting = false ∧
    p.down_protecting = false ∧ p.node_protecting = false := by
  unfold NodePath.mkExpand at h
  cases he : from_node_path t path with
  | error e => rw [he] at h; simp [Bind.bind, Except.bind] at h
  | ok eps =>
      rw [he] at h
      simp [Bind.bind, Except.bind, pure, Except.pure] at h
      subst h
      exact ⟨rfl, rfl, rfl, rfl⟩

theorem lfa_emit_mem (t : Topology) (source : String)
    (fhs : List PathElem) (link_prot down_prot node_prot : Bool)
    (ntps acc : NodePaths) (ntp : NodePath) (r : NodePaths)
    (h : LfaPaths.lfa_emit t source fhs link_prot down_prot node_prot ntps
      acc ntp = .ok r) :
    r.length ≤ acc.length + 1 ∧
    ∀ x ∈ r, x ∈ acc ∨
      (x.path = PathElem.node source :: ntp.path ∧
       x.link_protecting = link_prot ∧ x.down_protecting = down_prot ∧
       x.node_protecting = (node_prot && (fhs.flatMap (fun fh =>
         (ntps.filter (fun q => fh ∈ q.path)).map (fun _ => fh))).isEmpty)) := by
  unfold LfaPaths.lfa_emit at h
  cases hm : NodePath.mkExpand t (PathElem.node source :: ntp.path) with
  | error e => rw [hm] at h; simp [Bind.bind, Except.bind] at h
  | ok lfa_path =>
      rw [hm] at h
      simp only [Bind.bind, Except.bind] at h
      split at h
      · rcases NodePaths.append_cases _ _ _ h with h2 | h2
        · subst h2
          exact ⟨Nat.le_succ _, fun x hx => Or.inl hx⟩
        · subst h2
          constructor
          · rw [insertWeighted_length]
          · intro x hx
            rcases insertWeighted_mem _ _ _ hx with h3 | h3
            · subst h3
              exact Or.inr ⟨(mkExpand_ok t _ lfa_path hm).1, rfl, rfl, rfl⟩
            · exact Or.inl h3
      · simp [pure, Except.pure] at h
        subst h
        exact ⟨Nat.le_succ _, fun x hx => Or.inl hx⟩

/-- Claim C8 as amended: one emission step of the LFA engine adds at most
one entry to the collection, and every added entry carries the link flag
exactly when the link inequality held, the downstream flag exactly when the
downstream inequality held, and the node flag exactly when the node
inequality held with no first-hop overlap; the re-appends of the same
object per flag are deduplicated no-ops. -/
theorem claim_C8_amended (t : Topology) (source : String)
    (fhs : List PathElem) (link_prot down_prot node_prot : Bool)
    (ntps acc : NodePaths) (ntp : NodePath) (r : NodePaths)
    (h : LfaPaths.lfa_emit t source fhs link_prot down_prot node_prot ntps
      acc ntp = .ok r) :
    r.length ≤ acc.length + 1 ∧
    ∀ x ∈ r, x ∈ acc ∨
      (x.link_protecting = link_prot ∧ x.down_protecting = down_prot ∧
       x.node_protecting = (node_prot && (fhs.flatMap (fun fh =>
         (ntps.filter (fun q => fh ∈ q.path)).map (fun _ => fh))).isEmpty)) := by
  obtain ⟨hlen, hmem⟩ :=
    lfa_emit_mem t source fhs link_prot down_prot node_prot ntps acc ntp r h
  refine ⟨hlen, fun x hx => ?_⟩
  rcases hmem x hx with h2 | ⟨hp, h3, h4, h5⟩
  · exact Or.inl h2
  · exact Or.inr ⟨h3, h4, h5⟩

/-- Witness for the amended claim C8: the emission step of the diamond
topology candidate adds exactly the single all-flags entry. -/
theorem claim_C8_amended_witness :
    LfaPaths.lfa_emit topoT8 "S" [PathElem.node "A"] true true true
        [ntpT8] [] ntpT8 = Except.ok [lfaT8path] ∧
    ([lfaT8path].length ≤ ([] : NodePaths).length + 1 ∧
     ∀ x ∈ [lfaT8path], x ∈ ([] : NodePaths) ∨
       (x.link_protecting = true ∧ x.down_protecting = true ∧
        x.node_protecting = (true && (([PathElem.node "A"].flatMap (fun fh =>
          (([ntpT8] : NodePaths).filter (fun q => fh ∈ q.path)).map
            (fun _ => fh))).isEmpty)))) :=
  ⟨rfl, claim_C8_amended topoT8 "S" [PathElem.node "A"] true true true
    [ntpT8] [] ntpT8 [lfaT8path] rfl⟩

theorem listGet_ok {α : Type} (l : List α) (i : Nat) (x : α)
    (h : listGet l i = .ok x) : l.get? i = some x := by
  unfold listGet at h
  cases hg : l.get? i with
  | none => rw [hg] at h; simp at h
  | some y =>
      rw [hg] at h
      simp [pure, Except.pure] at h
      subst h
      rfl

theorem listGet_zero_head {α : Type} (l : List α) (x : α)
    (h : listGet l 0 = .ok x) : l.head? = some x := by
  cases l with
  | nil => simp [listGet] at h
  | cons a rest =>
      simp [listGet, pure, Except.pure] at h
      subst h
      rfl

theorem elemName_ok (e : PathElem) (s : String) (h : elemName e = .ok s) :
    e = .node s := by
  cases e with
  | node nm =>
      simp [elemName, pure, Except.pure] at h
      rw [h]
  | plist l => simp [elemName] at h

theorem overlap_isEmpty_forall (fhs : List PathElem) (ntps : NodePaths)
    (h : (fhs.flatMap (fun fh =>
      (ntps.filter (fun q => fh ∈ q.path)).map (fun _ => fh))).isEmpty
      = true) :
    ∀ fh ∈ fhs, ∀ q ∈ ntps, ¬ fh ∈ q.path := by
  rw [List.isEmpty_iff] at h
  intro fh hfh q hq hmem
  have hmem2 : fh ∈ fhs.flatMap (fun fh =>
      (ntps.filter (fun q => fh ∈ q.path)).map (fun _ => fh)) :=
    List.mem_flatMap.mpr ⟨fh, hfh,
      List.mem_map.mpr ⟨q, List.mem_filter.mpr ⟨hq, by simpa using hmem⟩, rfl⟩⟩
  rw [h] at hmem2
  exact absurd hmem2 (List.not_mem_nil fh)

theorem lfa_emit_invariant (t : Topology) (spf : PathsMap)
    (source target nei : String) (hheads : SpfHeads spf)
    (fhs : List PathElem)
    (hfh : (AllPaths.get_paths_between spf source
      target).get_first_hop_nodes = .ok fhs)
    (nh : String)
    (hnh : primaryNextHop spf source target = some (.node nh))
    (link_prot down_prot node_prot : Bool)
    (hlink : link_prot = true →
      spf_cost spf nei target <
        spf_cost spf nei source + spf_cost spf source target)
    (hdown : down_prot = true →
      spf_cost spf nei target < spf_cost spf source target)
    (hnodep : node_prot = true →
      spf_cost spf nei target <
        spf_cost spf nei nh + spf_cost spf nh target)
    (ntp : NodePath)
    (hntp : ntp ∈ AllPaths.get_paths_between spf nei target)
    (acc r : NodePaths)
    (hacc : ∀ p ∈ acc, LfaTagOK spf source target p)
    (h : LfaPaths.lfa_emit t source fhs link_prot down_prot node_prot
      (AllPaths.get_paths_between spf nei target) acc ntp = .ok r) :
    ∀ p ∈ r, LfaTagOK spf source target p := by
  intro p hp
  rcases (lfa_emit_mem _ _ _ _ _ _ _ _ _ _ h).2 p hp with
    hin | ⟨hpath, hl, hd, hn⟩
  · exact hacc p hin
  · intro N hN
    have hhead : ntp.path.head? = some (.node nei) :=
      get_paths_between_heads spf nei target hheads ntp hntp
    rw [hpath, List.get?_cons_succ] at hN
    have hNnei : nei = N := by
      have h0 : ntp.path.get? 0 = ntp.path.head? := by
        cases ntp.path <;> rfl
      rw [h0, hhead] at hN
      injection hN with hN
      injection hN
    subst hNnei
    refine ⟨fun hlp => hlink (hl.symm.trans hlp),
            fun hdp => hdown (hd.symm.trans hdp), fun hnp => ?_⟩
    have hand := hn.symm.trans hnp
    rw [Bool.and_eq_true] at hand
    obtain ⟨hnp1, hov⟩ := hand
    refine ⟨⟨nh, hnh, hnodep hnp1⟩, ?_⟩
    intro fhs2 hfh2 fh hfhm q hq
    have heq : fhs = fhs2 := by
      rw [hfh] at hfh2
      injection hfh2
    subst heq
    exact overlap_isEmpty_forall fhs _ hov fh hfhm q hq

theorem lfa_process_nei_invariant (t : Topology) (spf : PathsMap)
    (source target : String) (hheads : SpfHeads spf)
    (nei : String) (acc r : NodePaths)
    (hacc : ∀ p ∈ acc, LfaTagOK spf source target p)
    (h : LfaPaths.lfa_process_nei t spf source target acc nei = .ok r) :
    ∀ p ∈ r, LfaTagOK spf source target p := by
  unfold LfaPaths.lfa_process_nei at h
  split at h
  · simp [pure, Except.pure] at h; subst h; exact hacc
  split at h
  · simp at h
  rename_i fhs hfh
  split at h
  · simp [pure, Except.pure] at h; subst h; exact hacc
  split at h
  · simp at h
  rename_i any_best hab
  split at h
  · simp at h
  rename_i nhElem hnb
  split at h
  · simp at h
  rename_i nh hne
  have hnh : primaryNextHop spf source target = some (.node nh) := by
    have h0 := listGet_zero_head _ _ hab
    have h1 := listGet_ok _ _ _ hnb
    have h2 := elemName_ok _ _ hne
    unfold primaryNextHop
    rw [h0]
    show any_best.path.get? 1 = some (PathElem.node nh)
    rw [h1, h2]
  split at h
  · simp [pure, Except.pure] at h; subst h; exact hacc
  split at h
  · simp [pure, Except.pure] at h; subst h; exact hacc
  split at h
  · simp [pure, Except.pure] at h; subst h; exact hacc
  split at h
  · simp [pure, Except.pure] at h; subst h; exact hacc
  split at h
  · simp [pure, Except.pure] at h; subst h; exact hacc
  exact foldlM_except_invariant
    (fun l => ∀ p ∈ l, LfaTagOK spf source target p) _ _
    (fun ntp hntp a rr ha hstep =>
      lfa_emit_invariant t spf source target nei hheads
        fhs hfh nh hnh _ _ _
        (fun hl => of_decide_eq_true hl)
        (fun hd => of_decide_eq_true hd)
        (fun hn => of_decide_eq_true hn)
        ntp hntp a rr ha hstep)
    acc r hacc h

/-- Claim C4: assuming strictly positive edge weights, every NodePath of
the LFA result for a pair carries only justified flags: with N its second
node, a set link flag implies cost(N, D) below cost(N, S) plus cost(S, D),
a set downstream flag implies cost(N, D) below cost(S, D), and a set node
flag additionally implies the node-protecting inequality against the
primary next hop and the absence of every pre-failure first hop from every
spf path from N to D, all costs read from the spf result. -/
theorem claim_C4_lfa_tagging (t : Topology) (spf : PathsMap)
    (source target : String)
    (hpos : t.positive_weights) (hheads : SpfHeads spf)
    (res : NodePaths)
    (hok : LfaPaths.calculate_nodepaths t spf source target = .ok res) :
    ∀ p ∈ res, LfaTagOK spf source target p := by
  unfold LfaPaths.calculate_nodepaths at hok
  split at hok
  · simp [pure, Except.pure] at hok
    subst hok
    intro p hp
    simp at hp
  · exact foldlM_except_invariant
      (fun l => ∀ p ∈ l, LfaTagOK spf source target p) _ _
      (fun nei hnei a r ha hstep =>
        lfa_process_nei_invariant t spf source target hheads nei a r ha hstep)
      [] res (by intro p hp; simp at hp) hok

/-- Witness for claim C4 at the diamond topology: the hypotheses hold and
the single LFA path of the pair S, D satisfies the tagging property. -/
theorem claim_C4_lfa_tagging_witness :
    (topoT8.positive_weights ∧ SpfHeads spfT8) ∧
    (∀ p ∈ [lfaT8path], LfaTagOK spfT8 "S" "D" p) :=
  ⟨⟨by decide, by decide⟩,
   claim_C4_lfa_tagging topoT8 spfT8 "S" "D" (by decide) (by decide)
     [lfaT8path] rfl⟩

/-- Claim C9: every call of AllPaths.calculate_nodepaths is claimed to
restore the shared current_path to its entry state. The code fails this at
the top level already: called on the two-node topology with an empty
current_path, it returns with current_path holding the source node, and
each recursive call returns with the last entry node removed (the callee
pops the element its caller pushed). -/
theorem claim_C9_path_not_restored :
    AllPaths.calculate_nodepaths topoT2 8 [] [] "a" "b" =
      Except.ok ([t2path], [PathElem.node "a"]) ∧
    ([PathElem.node "a"] : List PathElem) ≠ [] :=
  ⟨rfl, by decide⟩

/-- Claim C10 counterexample: two nodes constructed without explicit edges
and neighbours arguments share the default containers, so after add_edge on
node a toward the fresh node c, node b reports the same edge toward c and c
as a neighbour, although before the call both results were empty. -/
theorem claim_C10_counterexample :
    ObjModel.edges_toward_node ObjModel.aliasFreshC.2 ObjModel.aliasNodeB
      ObjModel.aliasFreshC.1 = [] ∧
    ObjModel.get_neighbours ObjModel.aliasFreshC.2 ObjModel.aliasNodeB = [] ∧
    ObjModel.edges_toward_node ObjModel.aliasStoreAfter ObjModel.aliasNodeB
      ObjModel.aliasFreshC.1 = [ObjModel.aliasEdgeAC] ∧
    ObjModel.get_neighbours ObjModel.aliasStoreAfter ObjModel.aliasNodeB =
      ["c"] :=
  ⟨rfl, rfl, rfl, rfl⟩

theorem EdgePaths.append_head (paths : EdgePaths) (p : EdgePath) :
    (EdgePaths.append paths p).head? = some p ∨
    ((EdgePaths.append paths p).head? = paths.head? ∧ paths ≠ []) := by
  cases paths with
  | nil => left; rfl
  | cons q rest =>
      rw [EdgePaths.append]
      split
      · left; rfl
      · right; exact ⟨rfl, by simp⟩

theorem EdgePaths.append_chain (paths : EdgePaths) (p : EdgePath)
    (h : List.Chain' (· ≤ ·) (paths.map EdgePath.get_weight)) :
    List.Chain' (· ≤ ·)
      ((EdgePaths.append paths p).map EdgePath.get_weight) := by
  induction paths with
  | nil => simp [EdgePaths.append]
  | cons q rest ih =>
      rw [EdgePaths.append]
      split
      · rename_i hle
        simp only [List.map_cons] at h ⊢
        exact List.Chain'.cons hle h
      · rename_i hgt
        simp only [List.map_cons] at h ⊢
        have hrest := h.tail
        simp only [List.tail_cons] at hrest
        have hins := ih hrest
        apply List.chain'_cons'.mpr
        refine ⟨?_, hins⟩
        intro y hy
        rw [List.head?_map] at hy
        rcases EdgePaths.append_head rest p with h1 | ⟨h1, hne⟩
        · rw [h1] at hy
          simp at hy
          subst hy
          exact le_of_lt (lt_of_not_le hgt)
        · rw [h1] at hy
          cases rest with
          | nil => simp at hne
          | cons r2 rest2 =>
              simp at hy
              subst hy
              exact (List.chain'_cons.mp h).1

theorem insertWeighted_head (paths : NodePaths) (p : NodePath) :
    (NodePaths.insertWeighted paths p).head? = some p ∨
    ((NodePaths.insertWeighted paths p).head? = paths.head? ∧ paths ≠ []) := by
  cases paths with
  | nil => left; rfl
  | cons q rest =>
      rw [NodePaths.insertWeighted]
      split
      · left; rfl
      · right; exact ⟨rfl, by simp⟩

theorem insertWeighted_chain (paths : NodePaths) (p : NodePath)
    (h : List.Chain' (· ≤ ·) (paths.map NodePath.get_weight)) :
    List.Chain' (· ≤ ·)
      ((NodePaths.insertWeighted paths p).map NodePath.get_weight) := by
  induction paths with
  | nil => simp [NodePaths.insertWeighted]
  | cons q rest ih =>
      rw [NodePaths.insertWeighted]
      split
      · rename_i hle
        simp only [List.map_cons] at h ⊢
        exact List.Chain'.cons hle h
      · rename_i hgt
        simp only [List.map_cons] at h ⊢
        have hrest := h.tail
        simp only [List.tail_cons] at hrest
        have hins := ih hrest
        apply List.chain'_cons'.mpr
        refine ⟨?_, hins⟩
        intro y hy
        rw [List.head?_map] at hy
        rcases insertWeighted_head rest p with h1 | ⟨h1, hne⟩
        · rw [h1] at hy
          simp at hy
          subst hy
          exact le_of_lt (lt_of_not_le hgt)
        · rw [h1] at hy
          cases rest with
          | nil => simp at hne
          | cons r2 rest2 =>
              simp at hy
              subst hy
              exact (List.chain'_cons.mp h).1

theorem NodePaths.appendCaught_chain (paths : NodePaths) (p : NodePath)
    (h : List.Chain' (· ≤ ·) (paths.map NodePath.get_weight)) :
    List.Chain' (· ≤ ·)
      ((NodePaths.appendCaught paths p).map NodePath.get_weight) := by
  unfold NodePaths.appendCaught
  cases happ : NodePaths.append paths p with
  | error e => exact h
  | ok r =>
      rcases NodePaths.append_cases paths p r happ with h2 | h2
      · rw [h2]; exact h
      · rw [h2]; exact insertWeighted_chain paths p h

theorem foldl_edge_chain (l : List EdgePath) :
    ∀ acc : EdgePaths, List.Chain' (· ≤ ·) (acc.map EdgePath.get_weight) →
      List.Chain' (· ≤ ·)
        ((l.foldl EdgePaths.append acc).map EdgePath.get_weight) := by
  induction l with
  | nil => intro acc h; simpa using h
  | cons p rest ih =>
      intro acc h
      rw [List.foldl_cons]
      exact ih _ (EdgePaths.append_chain acc p h)

theorem foldl_node_chain (l : List NodePath) :
    ∀ acc : NodePaths, List.Chain' (· ≤ ·) (acc.map NodePath.get_weight) →
      List.Chain' (· ≤ ·)
        ((l.foldl NodePaths.appendCaught acc).map NodePath.get_weight) := by
  induction l with
  | nil => intro acc h; simpa using h
  | cons p rest ih =>
      intro acc h
      rw [List.foldl_cons]
      exact ih _ (NodePaths.appendCaught_chain acc p h)

/-- Claim C5: for every EdgePaths and every NodePaths collection, after any
sequence of append operations starting from the empty collection every
constructor in the source builds, the stored path weights read in list
order are non-decreasing; a NodePaths append whose endpoint validation
raises leaves the collection unchanged. -/
theorem claim_C5_weight_order :
    (∀ l : List EdgePath,
      List.Chain' (· ≤ ·)
        ((l.foldl EdgePaths.append []).map EdgePath.get_weight)) ∧
    (∀ l : List NodePath,
      List.Chain' (· ≤ ·)
        ((l.foldl NodePaths.appendCaught []).map NodePath.get_weight)) :=
  ⟨fun l => foldl_edge_chain l [] (by simp),
   fun l => foldl_node_chain l [] (by simp)⟩

/-- Claim C10 as amended: adjacency state is independent exactly for nodes
given fresh containers, as Node.from_dict does: after add_edge on the fresh
node a toward the fresh node c, the fresh node b still reports no edges
toward c and no neighbours, while a holds the added edge. -/
theorem claim_C10_amended :
    ObjModel.edges_toward_node ObjModel.freshStoreAfter ObjModel.freshB.1
      ObjModel.freshC.1 = [] ∧
    ObjModel.get_neighbours ObjModel.freshStoreAfter ObjModel.freshB.1 = [] ∧
    ObjModel.edges_toward_node ObjModel.freshStoreAfter ObjModel.freshA.1
      ObjModel.freshC.1 = [ObjModel.freshEdgeAC] :=
  ⟨rfl, rfl, rfl⟩

end PyFRR
